import Mathlib

/-!
Verification of audio-ninja (Rust) core invariants against a shallow Lean
embedding of the relevant modules.

Machine integers are modelled as `Nat` with explicit `% 2^w` where the Rust
code relies on wrapping; `f32`/`f64` sample arithmetic is modelled over `ℚ`
(the limiter and downmix code use only `+ * / min max abs`, which are exact
rational operations once the dB→linear threshold is taken as a parameter).
Fallible Rust functions returning `Option`/`Result` are embedded as
`Option`/`Except`.
-/

namespace AudioNinja



/-! ### Transport — `src/crates/core/src/transport.rs` -/

inductive ClockSource
  | Ptp
  | Ntp
  | System
deriving DecidableEq, Repr

/-- Rust `ClockTimestamp { seconds: u64, nanos: u32, source }`. -/
structure ClockTimestamp where
  seconds : Nat
  nanos : Nat
  source : ClockSource
deriving DecidableEq, Repr

/-- Rust `Duration::new(seconds, nanos)` flattened to nanoseconds. -/
def ClockTimestamp.to_duration (t : ClockTimestamp) : Nat :=
  t.seconds * 1000000000 + t.nanos

/-- Rust `RtpHeader`; `u8`/`u16`/`u32` fields are `Nat` carrying their range as a
side condition (`RtpHeader.valid`). -/
structure RtpHeader where
  version : Nat
  padding : Bool
  extension : Bool
  csrc_count : Nat
  marker : Bool
  payload_type : Nat
  sequence : Nat
  timestamp : Nat
  ssrc : Nat
deriving DecidableEq, Repr

/-- The range invariants the Rust types enforce, plus `version = 2` as in the
claim (every header built by `RtpHeader::new` has version 2). -/
def RtpHeader.valid (h : RtpHeader) : Prop :=
  h.version = 2 ∧ h.csrc_count ≤ 15 ∧ h.payload_type ≤ 127 ∧
    h.sequence < 65536 ∧ h.timestamp < 4294967296 ∧ h.ssrc < 4294967296

instance (h : RtpHeader) : Decidable h.valid := by
  unfold RtpHeader.valid; infer_instance

/-- Rust `RtpHeader::serialize`.  `to_be_bytes` of a `u16`/`u32` is embedded as the
big-endian digit decomposition `n / 256^i % 256`. -/
def RtpHeader.serialize (h : RtpHeader) : List Nat :=
  let b0 := ((h.version <<< 6) % 256) ||| (h.csrc_count &&& 15)
  let b0 := if h.padding then b0 ||| 32 else b0
  let b0 := if h.extension then b0 ||| 16 else b0
  let b1 := h.payload_type &&& 127
  let b1 := if h.marker then b1 ||| 128 else b1
  [b0, b1,
    h.sequence / 256 % 256, h.sequence % 256,
    h.timestamp / 16777216 % 256, h.timestamp / 65536 % 256,
    h.timestamp / 256 % 256, h.timestamp % 256,
    h.ssrc / 16777216 % 256, h.ssrc / 65536 % 256,
    h.ssrc / 256 % 256, h.ssrc % 256]

/-- Rust `RtpHeader::deserialize`.  `from_be_bytes` is the matching recomposition. -/
def RtpHeader.deserialize (buf : List Nat) : Option RtpHeader :=
  if buf.length < 12 then none
  else
    let b0 := buf.getD 0 0
    let b1 := buf.getD 1 0
    some {
      version := (b0 >>> 6) &&& 3
      padding := b0 &&& 32 != 0
      extension := b0 &&& 16 != 0
      csrc_count := b0 &&& 15
      marker := b1 &&& 128 != 0
      payload_type := b1 &&& 127
      sequence := buf.getD 2 0 * 256 + buf.getD 3 0
      timestamp := buf.getD 4 0 * 16777216 + buf.getD 5 0 * 65536 +
        buf.getD 6 0 * 256 + buf.getD 7 0
      ssrc := buf.getD 8 0 * 16777216 + buf.getD 9 0 * 65536 +
        buf.getD 10 0 * 256 + buf.getD 11 0 }

/-- Rust `RtpPacket { header, clock, payload }`. -/
structure RtpPacket where
  header : RtpHeader
  clock : ClockTimestamp
  payload : List Nat
deriving DecidableEq, Repr

/-- Rust `RtpPacket::serialize`. -/
def RtpPacket.serialize (p : RtpPacket) : List Nat :=
  p.header.serialize ++ p.payload

/-- Rust `RtpPacket::deserialize`; the `clock` field is stamped with
`ClockTimestamp::now`, passed here explicitly as `now`. -/
def RtpPacket.deserialize (now : ClockTimestamp) (buf : List Nat) :
    Option RtpPacket :=
  match RtpHeader.deserialize buf with
  | none => none
  | some h => some { header := h, clock := now, payload := buf.drop 12 }

/-! ### FEC — `src/crates/core/src/fec.rs` -/

inductive FecError
  | InsufficientData
  | InvalidPacket
  | RecoveryFailed
deriving DecidableEq, Repr

/-- Rust `XorFec { group_size, current_group, group_index }`. -/
structure XorFec where
  group_size : Nat
  current_group : List (List Nat)
  group_index : Nat
deriving DecidableEq, Repr

def XorFec.new (group_size : Nat) : XorFec :=
  { group_size := group_size, current_group := [], group_index := 0 }

/-- The inner XOR loop `for (i, &byte) in packet.iter().enumerate() { ... acc[i] ^= byte }`
with the `if i < acc.len()` bounds guard of `XorFec::decode` (bytes past the
accumulator are skipped).  `generate_fec` runs the same loop without the guard,
but there the accumulator has the maximal group length, so the guard never
fires and the two loops agree. -/
def xorInto : List Nat → List Nat → List Nat
  | acc, [] => acc
  | [], _ => []
  | a :: acc, b :: p => (a ^^^ b) :: xorInto acc p

/-- Rust `XorFec::generate_fec`: XOR of the current group into a zero buffer of the
maximal packet length. -/
def XorFec.generate_fec (s : XorFec) : List Nat :=
  if s.current_group.isEmpty then []
  else
    let max_len := (s.current_group.map List.length).foldl max 0
    s.current_group.foldl xorInto (List.replicate max_len 0)

/-- Rust `XorFec::encode`: push the packet; when the group is complete emit the FEC
packet and reset the group. -/
def XorFec.encode (s : XorFec) (packet : List Nat) : XorFec × Option (List Nat) :=
  let s := { s with current_group := s.current_group ++ [packet] }
  if s.current_group.length ≥ s.group_size then
    ({ group_size := s.group_size, current_group := [],
       group_index := s.group_index + 1 }, some s.generate_fec)
  else
    (s, none)

/-- Rust `XorFec::decode`: XOR all surviving packets into the FEC packet. -/
def XorFec.decode (s : XorFec) (packets : List (List Nat)) (fec : List Nat) :
    Except FecError (List Nat) :=
  if packets.length + 1 < s.group_size then .error .InsufficientData
  else .ok (packets.foldl xorInto fec)

/-- Feed a whole list of packets through `XorFec::encode`, collecting the
emitted FEC packets. -/
def XorFec.encodeAll (s : XorFec) : List (List Nat) → XorFec × List (Option (List Nat))
  | [] => (s, [])
  | p :: rest =>
    let so := s.encode p
    let rec' := so.1.encodeAll rest
    (rec'.1, so.2 :: rec'.2)

/-- Spec-side definition: the maximal packet length of a group. -/
def maxLen (g : List (List Nat)) : Nat :=
  (g.map List.length).foldl max 0

/-- Spec-side definition: the `j`-th byte of the zero-padded XOR of a group. -/
def byteXor (g : List (List Nat)) (j : Nat) : Nat :=
  g.foldl (fun a p => a ^^^ p.getD j 0) 0

/-- Spec-side definition: zero-pad a packet to length `n`. -/
def padTo (n : Nat) (l : List Nat) : List Nat :=
  l ++ List.replicate (n - l.length) 0

/-- Rust `LossStatistics` (all counters `u64`; wrapping of the 64-bit counters is
unreachable in any execution the claims range over, so they are plain `Nat`;
the 16-bit sequence arithmetic is explicit `% 65536`). -/
structure LossStatistics where
  total_expected : Nat
  total_received : Nat
  total_lost : Nat
  total_recovered : Nat
  consecutive_losses : Nat
  max_consecutive_losses : Nat
  last_sequence : Option Nat
deriving DecidableEq, Repr

/-- Rust `LossStatistics::new` = `Default::default()`. -/
def LossStatistics.new : LossStatistics :=
  { total_expected := 0, total_received := 0, total_lost := 0,
    total_recovered := 0, consecutive_losses := 0,
    max_consecutive_losses := 0, last_sequence := none }

/-- Rust `LossStatistics::update`; `wrapping_add`/`wrapping_sub` on `u16` become
`% 65536`; `last_sequence` stores the `u16` value `sequence % 65536`. -/
def LossStatistics.update (s : LossStatistics) (sequence : Nat) : LossStatistics :=
  match s.last_sequence with
  | some last =>
    let expected_next := (last + 1) % 65536
    let gap := (sequence % 65536 + 65536 - expected_next) % 65536
    let s :=
      if gap > 0 then
        { s with total_lost := s.total_lost + gap,
                 consecutive_losses := s.consecutive_losses + gap,
                 max_consecutive_losses :=
                   max s.max_consecutive_losses (s.consecutive_losses + gap) }
      else
        { s with consecutive_losses := 0 }
    { s with total_expected := s.total_expected + gap + 1,
             total_received := s.total_received + 1,
             last_sequence := some (sequence % 65536) }
  | none =>
    { s with total_expected := 1,
             total_received := s.total_received + 1,
             last_sequence := some (sequence % 65536) }

/-- Rust `LossStatistics::loss_rate` (`f64` division modelled over `ℚ`). -/
def LossStatistics.loss_rate (s : LossStatistics) : ℚ :=
  if s.total_expected = 0 then 0
  else (s.total_lost : ℚ) / (s.total_expected : ℚ)

/-- The strictly consecutive 16-bit sequence `start, start+1, …` (mod 2¹⁶). -/
def consecutiveSeqs (start n : Nat) : List Nat :=
  (List.range n).map (fun i => (start + i) % 65536)

/-! ### Jitter buffer — `src/crates/core/src/jitter.rs` -/

/-- Rust `RtpHeader::new` (version 2, dynamic payload type 96). -/
def RtpHeader.new (sequence timestamp ssrc : Nat) : RtpHeader :=
  { version := 2, padding := false, extension := false, csrc_count := 0,
    marker := false, payload_type := 96, sequence := sequence,
    timestamp := timestamp, ssrc := ssrc }

/-- Rust `RtpPacket::new`; the `ClockTimestamp::now` stamp is passed explicitly. -/
def RtpPacket.new (sequence timestamp ssrc : Nat) (clock : ClockTimestamp)
    (payload : List Nat) : RtpPacket :=
  { header := RtpHeader.new sequence timestamp ssrc, clock := clock,
    payload := payload }

inductive JitterBufferError
  | Full
  | Underrun
  | TooOld
deriving DecidableEq, Repr

/-- Rust `JitterBufferConfig`; `Duration`s as nanoseconds. -/
structure JitterBufferConfig where
  target_delay : Nat
  max_delay : Nat
  max_packets : Nat
deriving DecidableEq, Repr

def JitterBufferConfig.default : JitterBufferConfig :=
  { target_delay := 50000000, max_delay := 200000000, max_packets := 100 }

/-- Rust `BTreeMap<u16, RtpPacket>::insert` on a key-sorted association list
(replaces an existing key). -/
def btreeInsert (k : Nat) (v : RtpPacket) :
    List (Nat × RtpPacket) → List (Nat × RtpPacket)
  | [] => [(k, v)]
  | (k', v') :: rest =>
    if k < k' then (k, v) :: (k', v') :: rest
    else if k = k' then (k, v) :: rest
    else (k', v') :: btreeInsert k v rest

/-- Rust `JitterBuffer`; the `BTreeMap` is a key-sorted association list, so its
head is the entry with the smallest sequence. -/
structure JitterBuffer where
  config : JitterBufferConfig
  buffer : List (Nat × RtpPacket)
  last_popped : Option Nat
  packets_received : Nat
  packets_dropped : Nat
  packets_late : Nat
deriving DecidableEq, Repr

def JitterBuffer.new (config : JitterBufferConfig) : JitterBuffer :=
  { config := config, buffer := [], last_popped := none,
    packets_received := 0, packets_dropped := 0, packets_late := 0 }

/-- The tail of `JitterBuffer::push` after the too-old check: the full check
and the `BTreeMap` insert. -/
def JitterBuffer.pushStore (s : JitterBuffer) (seq : Nat) (packet : RtpPacket) :
    JitterBuffer × Except JitterBufferError Unit :=
  if s.buffer.length ≥ s.config.max_packets then
    ({ s with packets_dropped := s.packets_dropped + 1 }, .error .Full)
  else
    ({ s with buffer := btreeInsert seq packet s.buffer }, .ok ())

/-- Rust `JitterBuffer::push`.  `seq.wrapping_sub(last_seq)` on `u16` is
`(seq + 65536 - last_seq) % 65536` (exact whenever both are `< 65536`, which
the Rust `u16` type guarantees). -/
def JitterBuffer.push (s : JitterBuffer) (packet : RtpPacket) :
    JitterBuffer × Except JitterBufferError Unit :=
  let s := { s with packets_received := s.packets_received + 1 }
  let seq := packet.header.sequence
  match s.last_popped with
  | some last_seq =>
    let seq_diff := (seq + 65536 - last_seq) % 65536
    if seq_diff > 32768 then
      ({ s with packets_late := s.packets_late + 1 }, .error .TooOld)
    else
      s.pushStore seq packet
  | none => s.pushStore seq packet

/-- Rust `JitterBuffer::pop`: remove and return the entry with the smallest
sequence (the head of the sorted association list). -/
def JitterBuffer.pop (s : JitterBuffer) :
    JitterBuffer × Except JitterBufferError RtpPacket :=
  match s.buffer with
  | [] => (s, .error .Underrun)
  | (seq, packet) :: rest =>
    ({ s with buffer := rest, last_popped := some seq }, .ok packet)

def JitterBuffer.len (s : JitterBuffer) : Nat := s.buffer.length

structure JitterBufferStats where
  buffered : Nat
  received : Nat
  dropped : Nat
  late : Nat
deriving DecidableEq, Repr

/-- Rust `JitterBuffer::stats`. -/
def JitterBuffer.stats (s : JitterBuffer) : JitterBufferStats :=
  { buffered := s.buffer.length, received := s.packets_received,
    dropped := s.packets_dropped, late := s.packets_late }

/-! ### Latency compensation — `src/crates/core/src/latency.rs` -/

/-- Rust `SpeakerLatency`; `Duration`s as nanoseconds. -/
structure SpeakerLatency where
  speaker_id : String
  network_latency : Nat
  processing_latency : Nat
  hardware_latency : Nat
deriving DecidableEq, Repr

/-- Rust `SpeakerLatency::total`. -/
def SpeakerLatency.total (l : SpeakerLatency) : Nat :=
  l.network_latency + l.processing_latency + l.hardware_latency

/-- Rust `HashMap<String, SpeakerLatency>::insert` keyed by `speaker_id`, modelled
as an association list up to key uniqueness (the map is unordered and only
read through key lookup on the paths the claims cover). -/
def mapInsert (m : List SpeakerLatency) (l : SpeakerLatency) :
    List SpeakerLatency :=
  l :: m.filter (fun e => e.speaker_id != l.speaker_id)

/-- Rust `HashMap::get` keyed by `speaker_id`. -/
def mapGet (m : List SpeakerLatency) (id : String) : Option SpeakerLatency :=
  m.find? (fun e => e.speaker_id == id)

structure LatencyCompensator where
  speaker_latencies : List SpeakerLatency
  max_latency : Nat
deriving DecidableEq, Repr

/-- Rust `LatencyCompensator::new`. -/
def LatencyCompensator.new : LatencyCompensator :=
  { speaker_latencies := [], max_latency := 0 }

/-- Rust `LatencyCompensator::add_speaker`: raise `max_latency` if this speaker's
total exceeds it, then insert the entry. -/
def LatencyCompensator.add_speaker (c : LatencyCompensator)
    (latency : SpeakerLatency) : LatencyCompensator :=
  let total := latency.total
  let c := if total > c.max_latency then { c with max_latency := total } else c
  { c with speaker_latencies := mapInsert c.speaker_latencies latency }

/-- Rust `LatencyCompensator::delay_for_speaker` (`saturating_sub` is `Nat`
subtraction). -/
def LatencyCompensator.delay_for_speaker (c : LatencyCompensator)
    (speaker_id : String) : Option Nat :=
  match mapGet c.speaker_latencies speaker_id with
  | none => none
  | some sl => some (c.max_latency - sl.total)

/-! ### Clock sync — `src/crates/core/src/sync.rs`

`SystemTime::now()` is passed explicitly as a nanosecond duration `sysNow`;
`ClockTimestamp::now(source)` at that instant is its seconds/subsecond-nanos
decomposition. -/

structure ClockConfig where
  source : ClockSource
  sync_interval : Nat
  max_skew : Nat
deriving DecidableEq, Repr

def ClockConfig.default : ClockConfig :=
  { source := ClockSource.System, sync_interval := 100000000, max_skew := 100000 }

structure PtpClock where
  config : ClockConfig
  offset : Nat
  last_sync : Option ClockTimestamp
deriving DecidableEq, Repr

def PtpClock.new (config : ClockConfig) : PtpClock :=
  { config := config, offset := 0, last_sync := none }

/-- Rust `ClockTimestamp::now(source)` at system duration `d` nanoseconds
(`as_secs` / `subsec_nanos`). -/
def timestampOfDuration (d : Nat) (source : ClockSource) : ClockTimestamp :=
  { seconds := d / 1000000000, nanos := d % 1000000000, source := source }

/-- Rust `PtpClock::now`: system time plus the latched offset, as a timestamp. -/
def PtpClock.now (c : PtpClock) (sysNow : Nat) : ClockTimestamp :=
  let ts := timestampOfDuration sysNow ClockSource.Ptp
  let adjusted := ts.to_duration + c.offset
  { ts with seconds := adjusted / 1000000000, nanos := adjusted % 1000000000 }

/-- Rust `PtpClock::sync`: latch `offset` to `reference − local` when positive,
else zero (`max(0, reference − local)`, i.e. `Nat` truncated subtraction). -/
def PtpClock.sync (c : PtpClock) (sysNow : Nat) (reference : ClockTimestamp) :
    PtpClock :=
  let local_ := timestampOfDuration sysNow ClockSource.System
  let ref_dur := reference.to_duration
  let local_dur := local_.to_duration
  { c with
      offset := if ref_dur > local_dur then ref_dur - local_dur else 0,
      last_sync := some reference }

/-! ### Loudness / headroom limiter — `src/crates/core/src/loudness.rs`

`f32` sample arithmetic is exact over `ℚ` (`apply_limiting` uses only
`+ * / min max abs`).  `db_to_linear` is transcendental, so the *linear*
limiting threshold is the model's parameter: `HeadroomManager::new` clamps
`target_headroom_db` to `[0.1, 20]`, hence the linear threshold
`10^(−headroom/20)` always lies in `[1/10, 1)`, well above the `0.0001`
division guard. -/

structure HeadroomManager where
  limiting_threshold : ℚ
  limiter_gain : ℚ
  lookahead_samples : Nat
deriving DecidableEq, Repr

/-- One channel of `HeadroomManager::apply_limiting`: at each sample, look
ahead over the next `lookahead` original samples (the loop never reads an
already-scaled sample), pull the gain down to `threshold / peak` on a coming
peak, otherwise release `gain := min(gain·0.99 + 0.01, 1)`, and scale. -/
def applyLimitingChannel (t : ℚ) (L : Nat) : ℚ → List ℚ → ℚ × List ℚ
  | g, [] => (g, [])
  | g, x :: rest =>
    let abs_sample := |x|
    let ahead_max := (((x :: rest).take L).map (fun v => |v|)).foldl max abs_sample
    let g' :=
      if ahead_max > t then min (t / max ahead_max (1 / 10000)) g
      else min (g * (99 / 100) + 1 * (1 / 100)) 1
    let r := applyLimitingChannel t L g' rest
    (r.1, x * g' :: r.2)

/-- The per-channel loop of `apply_limiting`, threading `limiter_gain`. -/
def applyChannels (t : ℚ) (L : Nat) : ℚ → List (List ℚ) → ℚ × List (List ℚ)
  | g, [] => (g, [])
  | g, ch :: rest =>
    let r1 := applyLimitingChannel t L g ch
    let r2 := applyChannels t L r1.1 rest
    (r2.1, r1.2 :: r2.2)

/-- Rust `HeadroomManager::apply_limiting` on an audio block's channels. -/
def HeadroomManager.apply_limiting (m : HeadroomManager)
    (channels : List (List ℚ)) : HeadroomManager × List (List ℚ) :=
  if channels.isEmpty then (m, channels)
  else
    let r := applyChannels m.limiting_threshold m.lookahead_samples
      m.limiter_gain channels
    ({ m with limiter_gain := r.1 }, r.2)

/-! ### Channel mapping — `src/crates/audio-ninja/src/mapping.rs`

`f32` samples over `ℚ` (`downmix_channels` uses only `+` and `*`).  Indexing
`input[ch][i]` is modelled with `getD _ 0`; the out-of-bounds default is
unreachable under the equal-channel-length hypotheses the claims range over
(where Rust would otherwise panic). -/

/-- Rust `downmix_channels`. -/
def downmix_channels (input : List (List ℚ)) (target_count : Nat) :
    List (List ℚ) :=
  if input.isEmpty ∨ target_count = 0 then []
  else
    let frame_len := (input.headD []).length
    if input.length = target_count then input
    else if input.length > target_count then
      if target_count = 2 ∧ input.length ≥ 5 then
        -- 5.1 to stereo: left = FL + 0.707·C, right = FR + 0.707·C
        let c := input.getD 2 []
        let left :=
          if input.length > 2 then
            (List.range frame_len).map
              (fun i => (input.getD 0 []).getD i 0 + c.getD i 0 * (707 / 1000))
          else input.getD 0 []
        let right :=
          if input.length > 2 then
            (List.range frame_len).map
              (fun i => (input.getD 1 []).getD i 0 + c.getD i 0 * (707 / 1000))
          else input.getD 1 []
        [left, right]
      else input.take target_count
    else
      input ++ List.replicate (target_count - input.length)
        (List.replicate frame_len 0)

/-! Byte-0 / byte-1 bit-packing facts, over the bounded `u8` sub-fields. -/

theorem byte0_roundtrip (p e : Bool) : ∀ cc, cc ≤ 15 →
    (let b0 := ((2 <<< 6) % 256) ||| (cc &&& 15)
     let b0 := if p then b0 ||| 32 else b0
     let b0 := if e then b0 ||| 16 else b0
     ((b0 >>> 6) &&& 3 = 2) ∧ ((b0 &&& 32 != 0) = p) ∧
       ((b0 &&& 16 != 0) = e) ∧ (b0 &&& 15 = cc)) := by
  cases p <;> cases e <;> decide

theorem byte1_roundtrip (m : Bool) : ∀ pt, pt ≤ 127 →
    (let b1 := pt &&& 127
     let b1 := if m then b1 ||| 128 else b1
     ((b1 &&& 128 != 0) = m) ∧ (b1 &&& 127 = pt)) := by
  cases m <;> decide

/-- C1: a valid RTP header serializes to exactly 12 bytes, and packet
round-trip (`deserialize ∘ serialize`) preserves every header field and the
payload bit-exactly. -/
theorem rtp_packet_roundtrip (h : RtpHeader) (hv : h.valid)
    (payload : List Nat) (clock now : ClockTimestamp) :
    h.serialize.length = 12 ∧
      RtpPacket.deserialize now
          (RtpPacket.serialize { header := h, clock := clock, payload := payload }) =
        some { header := h, clock := now, payload := payload } := by
  obtain ⟨hver, hcc, hpt, hseq, hts, hssrc⟩ := hv
  obtain ⟨ver, pad, ext, cc, mark, pt, seq, ts, ssrc⟩ := h
  simp only at hver hcc hpt hseq hts hssrc
  subst hver
  have hb0 := byte0_roundtrip pad ext cc hcc
  have hb1 := byte1_roundtrip mark pt hpt
  simp only at hb0 hb1
  constructor
  · simp [RtpHeader.serialize]
  · simp only [RtpPacket.serialize, RtpPacket.deserialize, RtpHeader.serialize,
      RtpHeader.deserialize, List.cons_append, List.nil_append]
    simp only [List.length_cons, List.getD, List.drop]
    rw [if_neg (by omega)]
    norm_num
    exact ⟨hb0.1, hb0.2.1, hb0.2.2.1, hb0.2.2.2, hb1.1, hb1.2, by omega, by omega,
      by omega⟩

/-- C1 witness: a concrete valid packet round-trips. -/
theorem rtp_packet_roundtrip_witness :
    (RtpHeader.valid
        { version := 2, padding := true, extension := false, csrc_count := 5,
          marker := true, payload_type := 96, sequence := 4660,
          timestamp := 305419896, ssrc := 2596069104 }) ∧
      (RtpHeader.serialize
          { version := 2, padding := true, extension := false, csrc_count := 5,
            marker := true, payload_type := 96, sequence := 4660,
            timestamp := 305419896, ssrc := 2596069104 }).length = 12 ∧
      RtpPacket.deserialize ⟨7, 8, ClockSource.System⟩
          (RtpPacket.serialize
            { header :=
                { version := 2, padding := true, extension := false,
                  csrc_count := 5, marker := true, payload_type := 96,
                  sequence := 4660, timestamp := 305419896, ssrc := 2596069104 },
              clock := ⟨1, 2, ClockSource.System⟩, payload := [10, 20, 30] }) =
        some { header :=
                { version := 2, padding := true, extension := false,
                  csrc_count := 5, marker := true, payload_type := 96,
                  sequence := 4660, timestamp := 305419896, ssrc := 2596069104 },
               clock := ⟨7, 8, ClockSource.System⟩, payload := [10, 20, 30] } :=
  ⟨by decide,
    (rtp_packet_roundtrip _ (by decide) [10, 20, 30] ⟨1, 2, ClockSource.System⟩
        ⟨7, 8, ClockSource.System⟩).1,
    (rtp_packet_roundtrip _ (by decide) [10, 20, 30] ⟨1, 2, ClockSource.System⟩
        ⟨7, 8, ClockSource.System⟩).2⟩

theorem xorInto_length (acc p : List Nat) : (xorInto acc p).length = acc.length := by
  induction acc generalizing p with
  | nil => cases p <;> rfl
  | cons a as ih => cases p with
    | nil => rfl
    | cons b bs => simp [xorInto, ih]

theorem xorInto_getD (acc p : List Nat) (j : Nat) :
    (xorInto acc p).getD j 0 =
      acc.getD j 0 ^^^ (if j < acc.length then p.getD j 0 else 0) := by
  induction acc generalizing p j with
  | nil => cases p <;> simp [xorInto]
  | cons a as ih =>
    cases p with
    | nil => simp [xorInto]
    | cons b bs =>
      cases j with
      | zero => simp [xorInto]
      | succ j => simpa [xorInto] using ih bs j

theorem foldl_xorInto_length (g : List (List Nat)) (acc : List Nat) :
    (g.foldl xorInto acc).length = acc.length := by
  induction g generalizing acc with
  | nil => rfl
  | cons p rest ih => simp [List.foldl_cons, ih, xorInto_length]

theorem byteXor_shift (g : List (List Nat)) (j : Nat) (x : Nat) :
    g.foldl (fun a p => a ^^^ p.getD j 0) x = x ^^^ byteXor g j := by
  induction g generalizing x with
  | nil => simp [byteXor]
  | cons p rest ih =>
    simp only [byteXor, List.foldl_cons, Nat.zero_xor] at *
    rw [ih, ih (p.getD j 0), Nat.xor_assoc]

theorem byteXor_cons (p : List Nat) (rest : List (List Nat)) (j : Nat) :
    byteXor (p :: rest) j = p.getD j 0 ^^^ byteXor rest j := by
  simp only [byteXor, List.foldl_cons, Nat.zero_xor]
  exact byteXor_shift rest j _

theorem foldl_xorInto_getD (g : List (List Nat)) (acc : List Nat) (j : Nat) :
    (g.foldl xorInto acc).getD j 0 =
      acc.getD j 0 ^^^ (if j < acc.length then byteXor g j else 0) := by
  induction g generalizing acc with
  | nil => simp [byteXor]
  | cons p rest ih =>
    simp only [List.foldl_cons]
    rw [ih, xorInto_getD, xorInto_length, byteXor_cons]
    by_cases hj : j < acc.length <;> simp [hj, Nat.xor_assoc]

theorem length_le_maxLen (g : List (List Nat)) (p : List Nat) (hp : p ∈ g) :
    p.length ≤ maxLen g := by
  have h : ∀ (l : List Nat) (x : Nat), x ≤ l.foldl max x := by
    intro l
    induction l with
    | nil => intro x; exact Nat.le_refl x
    | cons a as ih =>
      intro x
      exact le_trans (Nat.le_max_left x a) (ih (max x a))
  have h2 : ∀ (l : List Nat) (x y : Nat), x ∈ l → x ≤ l.foldl max y := by
    intro l
    induction l with
    | nil => intro x y hx; cases hx
    | cons a as ih =>
      intro x y hx
      rcases List.mem_cons.mp hx with rfl | hx
      · exact le_trans (Nat.le_max_right y x) (h as (max y x))
      · exact ih x (max y a) hx
  exact h2 (g.map List.length) p.length 0 (List.mem_map_of_mem List.length hp)

theorem byteXor_eraseIdx (g : List (List Nat)) (i : Nat) (hi : i < g.length) (j : Nat) :
    byteXor g j = (g.get ⟨i, hi⟩).getD j 0 ^^^ byteXor (g.eraseIdx i) j := by
  induction g generalizing i with
  | nil => cases hi
  | cons p rest ih =>
    cases i with
    | zero => simp [byteXor_cons, List.eraseIdx]
    | succ i =>
      have hi' : i < rest.length := by simpa using hi
      simp only [List.eraseIdx, byteXor_cons, List.get]
      rw [ih i hi']
      rw [← Nat.xor_assoc, ← Nat.xor_assoc, Nat.xor_comm (p.getD j 0)]

theorem list_eq_of_getD (a b : List Nat) (hl : a.length = b.length)
    (h : ∀ j, j < a.length → a.getD j 0 = b.getD j 0) : a = b := by
  apply List.ext_getElem hl
  intro j h1 h2
  have := h j h1
  rwa [List.getD_eq_getElem a 0 h1, List.getD_eq_getElem b 0 h2] at this

theorem padTo_getD (n : Nat) (l : List Nat) (j : Nat) :
    (padTo n l).getD j 0 = l.getD j 0 := by
  unfold padTo
  by_cases hj : j < l.length
  · rw [List.getD_eq_getElem _ 0 (by simp; omega), List.getD_eq_getElem _ 0 hj]
    simp [List.getElem_append_left hj]
  · rcases Nat.lt_or_ge j (l.length + (n - l.length)) with hj2 | hj2
    · rw [List.getD_eq_getElem _ 0 (by simp; omega)]
      rw [List.getElem_append_right (by omega)]
      rw [List.getElem_replicate]
      exact (List.getD_eq_default l 0 (by omega)).symm
    · rw [List.getD_eq_default _ 0 (by simp; omega), List.getD_eq_default _ 0 (by omega)]

theorem padTo_length (n : Nat) (l : List Nat) (h : l.length ≤ n) :
    (padTo n l).length = n := by
  simp [padTo]; omega

/-- After feeding a partial group on top of accumulated packets, `encodeAll`
emits `none` until the group completes, then the XOR parity. -/
theorem encodeAll_emits (ps : List (List Nat)) :
    ∀ (k : Nat) (acc : List (List Nat)) (gi : Nat),
      acc.length + ps.length = k → ps ≠ [] →
      (XorFec.encodeAll ⟨k, acc, gi⟩ ps).2 =
        List.replicate (ps.length - 1) none ++
          [some (XorFec.generate_fec ⟨k, acc ++ ps, gi⟩)] := by
  induction ps with
  | nil => intro k acc gi h hne; exact absurd rfl hne
  | cons p rest ih =>
    intro k acc gi h hne
    cases rest with
    | nil =>
      simp only [XorFec.encodeAll, XorFec.encode]
      rw [if_pos (by simp at h ⊢; omega)]
      simp [XorFec.encodeAll]
    | cons q rest' =>
      have hstep : XorFec.encode ⟨k, acc, gi⟩ p = (⟨k, acc ++ [p], gi⟩, none) := by
        simp only [XorFec.encode]
        rw [if_neg (by simp at h ⊢; omega)]
      have hunf : XorFec.encodeAll (⟨k, acc, gi⟩ : XorFec) (p :: q :: rest') =
          (let so := XorFec.encode ⟨k, acc, gi⟩ p
           let r := so.1.encodeAll (q :: rest')
           (r.1, so.2 :: r.2)) := rfl
      rw [hunf, hstep]
      simp only []
      rw [ih k (acc ++ [p]) gi (by simp at h ⊢; omega) (by simp)]
      simp [List.replicate_succ]

/-- C2: with group size `k = |ps| ≥ 1`, feeding `ps` through `XorFec::encode`
from a fresh state emits `none` for the first `k−1` packets and the parity `q`
on the `k`-th; `q` is the byte-wise XOR of all packets over the maximal length
(shorter packets zero-padded); and for every `i`, `XorFec::decode` on the
other `k−1` packets plus `q` recovers packet `i` (zero-padded to the parity
length, which is packet `i` itself when lengths are equal). -/
theorem xor_fec_encode_decode (ps : List (List Nat)) (k : Nat)
    (hk : k = ps.length) (h1 : 1 ≤ k) :
    ((XorFec.new k).encodeAll ps).2 =
        List.replicate (k - 1) none ++
          [some (XorFec.generate_fec ⟨k, ps, 0⟩)] ∧
      (XorFec.generate_fec ⟨k, ps, 0⟩).length = maxLen ps ∧
      (∀ j, j < maxLen ps →
        (XorFec.generate_fec ⟨k, ps, 0⟩).getD j 0 = byteXor ps j) ∧
      (∀ i (hi : i < ps.length),
        (XorFec.new k).decode (ps.eraseIdx i) (XorFec.generate_fec ⟨k, ps, 0⟩) =
          .ok (padTo (maxLen ps) (ps.get ⟨i, hi⟩))) := by
  subst hk
  have hne : ps ≠ [] := by
    intro h; subst h; simp at h1
  have hlenq : (XorFec.generate_fec ⟨ps.length, ps, 0⟩).length = maxLen ps := by
    unfold XorFec.generate_fec
    rw [if_neg (by simpa using hne)]
    simp only []
    rw [foldl_xorInto_length, List.length_replicate]
    rfl
  have hq : ∀ j, j < maxLen ps →
      (XorFec.generate_fec ⟨ps.length, ps, 0⟩).getD j 0 = byteXor ps j := by
    intro j hj
    unfold XorFec.generate_fec
    rw [if_neg (by simpa using hne)]
    simp only []
    rw [foldl_xorInto_getD, List.length_replicate]
    rw [if_pos (by simpa [maxLen] using hj)]
    have hz : (List.replicate ((ps.map List.length).foldl max 0) 0).getD j 0 = 0 := by
      rw [List.getD_eq_getElem _ 0 (by simpa [maxLen] using hj)]
      exact List.getElem_replicate ..
    rw [hz, Nat.zero_xor]
  refine ⟨?_, hlenq, hq, ?_⟩
  · exact encodeAll_emits ps ps.length [] 0 (by simp) hne
  · intro i hi
    unfold XorFec.decode
    rw [if_neg (by simp [XorFec.new, List.length_eraseIdx, hi]; omega)]
    congr 1
    apply list_eq_of_getD
    · rw [foldl_xorInto_length, hlenq,
        padTo_length _ _ (length_le_maxLen ps _ (ps.get_mem i hi))]
    · intro j hj
      rw [foldl_xorInto_length, hlenq] at hj
      rw [foldl_xorInto_getD, hlenq, if_pos hj, hq j hj, padTo_getD,
        byteXor_eraseIdx ps i hi j, Nat.xor_assoc, Nat.xor_self, Nat.xor_zero]

/-- C2 witness: the concrete group `[1,2,3], [4,5,6], [7,8,9]` has parity
`[2,15,12]`, and hiding the second packet decodes back to `[4,5,6]`. -/
theorem xor_fec_encode_decode_witness :
    ((XorFec.new 3).encodeAll [[1, 2, 3], [4, 5, 6], [7, 8, 9]]).2 =
        [none, none, some [2, 15, 12]] ∧
      (XorFec.new 3).decode [[1, 2, 3], [7, 8, 9]] [2, 15, 12] = .ok [4, 5, 6] := by
  have h := xor_fec_encode_decode [[1, 2, 3], [4, 5, 6], [7, 8, 9]] 3 rfl
    (by decide)
  have hq : XorFec.generate_fec ⟨3, [[1, 2, 3], [4, 5, 6], [7, 8, 9]], 0⟩ =
      [2, 15, 12] := by decide
  refine ⟨?_, by rfl⟩
  rw [h.1, hq]
  decide

theorem update_consecutive (s : LossStatistics) (l : Nat)
    (hs : s.last_sequence = some l) (hl : l < 65536) :
    s.update ((l + 1) % 65536) =
      { s with consecutive_losses := 0,
               total_expected := s.total_expected + 1,
               total_received := s.total_received + 1,
               last_sequence := some ((l + 1) % 65536) } := by
  have hgap : (((l + 1) % 65536) % 65536 + 65536 - (l + 1) % 65536) % 65536 = 0 := by
    omega
  unfold LossStatistics.update
  rw [hs]
  simp only [hgap]
  norm_num

theorem consecutive_fold_state (start : Nat) : ∀ n, 1 ≤ n →
    (consecutiveSeqs start n).foldl LossStatistics.update LossStatistics.new =
      { total_expected := n, total_received := n, total_lost := 0,
        total_recovered := 0, consecutive_losses := 0,
        max_consecutive_losses := 0,
        last_sequence := some ((start + n - 1) % 65536) } := by
  intro n
  induction n with
  | zero => omega
  | succ n ih =>
    intro _
    rcases Nat.eq_zero_or_pos n with rfl | hn
    · simp [consecutiveSeqs, LossStatistics.update, LossStatistics.new,
        List.range_succ]
    · have hseqs : consecutiveSeqs start (n + 1) =
          consecutiveSeqs start n ++ [(start + n) % 65536] := by
        simp [consecutiveSeqs, List.range_succ]
      rw [hseqs, List.foldl_append, ih hn]
      simp only [List.foldl_cons, List.foldl_nil]
      have hstep : (start + n) % 65536 = ((start + n - 1) % 65536 + 1) % 65536 := by
        omega
      rw [hstep, update_consecutive _ _ rfl (Nat.mod_lt _ (by omega))]
      have hback : ((start + n - 1) % 65536 + 1) % 65536 = (start + n) % 65536 := by
        omega
      simp [hback]

/-- C6: for strictly consecutive 16-bit sequences (with modular wraparound),
`LossStatistics` records zero loss, a zero loss rate, and counts every call in
`total_received`. -/
theorem loss_statistics_consecutive (start n : Nat) :
    ((consecutiveSeqs start n).foldl LossStatistics.update LossStatistics.new).total_lost
        = 0 ∧
      ((consecutiveSeqs start n).foldl LossStatistics.update
          LossStatistics.new).total_received = n ∧
      ((consecutiveSeqs start n).foldl LossStatistics.update
          LossStatistics.new).loss_rate = 0 := by
  rcases Nat.eq_zero_or_pos n with rfl | hn
  · simp [consecutiveSeqs, LossStatistics.new, LossStatistics.loss_rate]
  · rw [consecutive_fold_state start n hn]
    refine ⟨rfl, rfl, ?_⟩
    unfold LossStatistics.loss_rate
    simp only []
    rcases Nat.eq_zero_or_pos n with rfl | hn2
    · simp
    · rw [if_neg (by omega)]
      simp

/-- C5: from an empty buffer, pushing sequences 100, 101, 102, popping twice
(returning the packets with the smallest buffered sequences, 100 then 101),
then pushing sequence 99 yields the `TooOld` error and leaves the number of
buffered packets unchanged at 1. -/
theorem jitter_buffer_push_pop_scenario :
    let c : ClockTimestamp := ⟨0, 0, ClockSource.System⟩
    let s0 := JitterBuffer.new JitterBufferConfig.default
    let s1 := (s0.push (RtpPacket.new 100 0 0 c [])).1
    let s2 := (s1.push (RtpPacket.new 101 0 0 c [])).1
    let s3 := (s2.push (RtpPacket.new 102 0 0 c [])).1
    let pop1 := s3.pop
    let pop2 := pop1.1.pop
    let push99 := pop2.1.push (RtpPacket.new 99 0 0 c [])
    pop1.2 = .ok (RtpPacket.new 100 0 0 c []) ∧
      pop2.2 = .ok (RtpPacket.new 101 0 0 c []) ∧
      push99.2 = .error .TooOld ∧
      pop2.1.len = 1 ∧
      push99.1.len = 1 :=
  ⟨rfl, rfl, rfl, rfl, rfl⟩

/-- C4 counterexample: a buffer whose last popped sequence is 100 receives a
packet with sequence 25636, which is more than 32,768 behind it in the sense
of the claim (`(last_popped − seq) mod 2¹⁶ = 40000 > 32768`), yet `push`
accepts the packet (`Ok(())`) and does not touch `packets_late`. -/
theorem jitter_too_old_counterexample :
    let c : ClockTimestamp := ⟨0, 0, ClockSource.System⟩
    let s1 := ((JitterBuffer.new JitterBufferConfig.default).push
      (RtpPacket.new 100 0 0 c [])).1
    let s2 := s1.pop.1
    let push' := s2.push (RtpPacket.new 25636 0 0 c [])
    s2.last_popped = some 100 ∧
      (100 + 65536 - 25636) % 65536 > 32768 ∧
      push'.2 = .ok () ∧
      push'.1.packets_late = s2.packets_late :=
  ⟨rfl, by decide, rfl, rfl⟩

/-- C4 amended: a pushed packet whose 16-bit sequence satisfies
`(seq − last_popped) mod 2¹⁶ > 32768` — i.e. is between 1 and 32,767 behind
the last popped sequence — is rejected with `TooOld` and `packets_late` is
incremented. -/
theorem jitter_push_too_old (s : JitterBuffer) (p : RtpPacket) (last : Nat)
    (hlp : s.last_popped = some last)
    (hs : p.header.sequence < 65536) (hl : last < 65536)
    (hd : (p.header.sequence + 65536 - last) % 65536 > 32768) :
    (s.push p).2 = .error .TooOld ∧
      (s.push p).1 = { s with packets_received := s.packets_received + 1,
                              packets_late := s.packets_late + 1 } := by
  unfold JitterBuffer.push
  simp only [hlp]
  rw [if_pos hd]
  exact ⟨rfl, rfl⟩

/-- C4 witness: after popping sequence 100, pushing sequence 99 (one behind)
is rejected as too old. -/
theorem jitter_push_too_old_witness :
    let c : ClockTimestamp := ⟨0, 0, ClockSource.System⟩
    let s1 := ((JitterBuffer.new JitterBufferConfig.default).push
      (RtpPacket.new 100 0 0 c [])).1
    let s2 := s1.pop.1
    (s2.push (RtpPacket.new 99 0 0 c [])).2 = .error .TooOld ∧
      (s2.push (RtpPacket.new 99 0 0 c [])).1 =
        { s2 with packets_received := s2.packets_received + 1,
                  packets_late := s2.packets_late + 1 } :=
  jitter_push_too_old _ _ 100 rfl (by decide) (by decide) (by decide)

/-- C10: `JitterBuffer::push` increments `packets_received` on every call,
including failing ones; on `TooOld` and `Full` the stored packet map is left
untouched while `packets_late` resp. `packets_dropped` is incremented — so
`packets_received` counts push attempts, not stored packets. -/
theorem jitter_push_counts_attempts (s : JitterBuffer) (p : RtpPacket) :
    (s.push p).1.stats.received = s.stats.received + 1 ∧
      ((s.push p).2 = .error .TooOld →
        (s.push p).1.buffer = s.buffer ∧
          (s.push p).1.stats.late = s.stats.late + 1 ∧
          (s.push p).1.stats.dropped = s.stats.dropped) ∧
      ((s.push p).2 = .error .Full →
        (s.push p).1.buffer = s.buffer ∧
          (s.push p).1.stats.dropped = s.stats.dropped + 1 ∧
          (s.push p).1.stats.late = s.stats.late) := by
  cases hlp : s.last_popped with
  | none =>
    by_cases hfull : s.buffer.length ≥ s.config.max_packets
    · simp [JitterBuffer.push, JitterBuffer.pushStore, JitterBuffer.stats, hlp,
        hfull]
    · simp [JitterBuffer.push, JitterBuffer.pushStore, JitterBuffer.stats, hlp,
        hfull]
  | some last =>
    by_cases hd : (p.header.sequence + 65536 - last) % 65536 > 32768
    · simp [JitterBuffer.push, JitterBuffer.stats, hlp, hd]
    · by_cases hfull : s.buffer.length ≥ s.config.max_packets
      · simp [JitterBuffer.push, JitterBuffer.pushStore, JitterBuffer.stats,
          hlp, hd, hfull]
      · simp [JitterBuffer.push, JitterBuffer.pushStore, JitterBuffer.stats,
          hlp, hd, hfull]

/-- C10 witness: a concrete rejected-as-too-old push still bumps
`packets_received`. -/
theorem jitter_push_counts_attempts_witness :
    let c : ClockTimestamp := ⟨0, 0, ClockSource.System⟩
    let s2 := (((JitterBuffer.new JitterBufferConfig.default).push
      (RtpPacket.new 100 0 0 c [])).1).pop.1
    let p99 := RtpPacket.new 99 0 0 c []
    (s2.push p99).1.stats.received = s2.stats.received + 1 ∧
      ((s2.push p99).2 = .error .TooOld →
        (s2.push p99).1.buffer = s2.buffer ∧
          (s2.push p99).1.stats.late = s2.stats.late + 1 ∧
          (s2.push p99).1.stats.dropped = s2.stats.dropped) ∧
      ((s2.push p99).2 = .error .Full →
        (s2.push p99).1.buffer = s2.buffer ∧
          (s2.push p99).1.stats.dropped = s2.stats.dropped + 1 ∧
          (s2.push p99).1.stats.late = s2.stats.late) :=
  jitter_push_counts_attempts _ _

theorem add_speaker_latencies (c : LatencyCompensator) (l : SpeakerLatency) :
    (c.add_speaker l).speaker_latencies = mapInsert c.speaker_latencies l := by
  unfold LatencyCompensator.add_speaker
  by_cases h : l.total > c.max_latency <;> simp [h]

theorem add_speaker_max (c : LatencyCompensator) (l : SpeakerLatency) :
    (c.add_speaker l).max_latency = max c.max_latency l.total := by
  unfold LatencyCompensator.add_speaker
  by_cases h : l.total > c.max_latency <;> simp [h] <;> omega

theorem mapGet_insert_self (m : List SpeakerLatency) (l : SpeakerLatency) :
    mapGet (mapInsert m l) l.speaker_id = some l := by
  simp [mapGet, mapInsert, List.find?]

theorem find_filter_ne (m : List SpeakerLatency) (lid id : String)
    (h : id ≠ lid) :
    (m.filter (fun e => e.speaker_id != lid)).find?
        (fun e => e.speaker_id == id) =
      m.find? (fun e => e.speaker_id == id) := by
  induction m with
  | nil => rfl
  | cons e rest ih =>
    by_cases he : e.speaker_id = lid
    · have h1 : (e.speaker_id != lid) = false := by simp [he]
      have h2 : (e.speaker_id == id) = false := by
        simp [he]; exact fun hh => h hh.symm
      simp [List.filter_cons, h1, List.find?_cons, h2, ih]
    · have h1 : (e.speaker_id != lid) = true := by simp [he]
      simp only [List.filter_cons, h1, if_true, List.find?_cons]
      by_cases h2 : (e.speaker_id == id) = true
      · simp [h2]
      · simp only [Bool.not_eq_true] at h2
        simp [h2, ih]

theorem mapGet_insert_ne (m : List SpeakerLatency) (l : SpeakerLatency)
    (id : String) (h : id ≠ l.speaker_id) :
    mapGet (mapInsert m l) id = mapGet m id := by
  unfold mapGet mapInsert
  rw [List.find?_cons]
  have h2 : (l.speaker_id == id) = false := by
    simp; exact fun hh => h hh.symm
  rw [h2]
  exact find_filter_ne m l.speaker_id id h

theorem fold_add_speaker_max (L : List SpeakerLatency) :
    ∀ c : LatencyCompensator,
      (L.foldl LatencyCompensator.add_speaker c).max_latency =
        (L.map SpeakerLatency.total).foldl max c.max_latency := by
  induction L with
  | nil => intro c; rfl
  | cons l rest ih =>
    intro c
    simp only [List.foldl_cons, List.map_cons]
    rw [ih, add_speaker_max]

theorem fold_add_speaker_lookup_preserve (L : List SpeakerLatency) :
    ∀ (c : LatencyCompensator) (id : String),
      (∀ e ∈ L, e.speaker_id ≠ id) →
      mapGet (L.foldl LatencyCompensator.add_speaker c).speaker_latencies id =
        mapGet c.speaker_latencies id := by
  induction L with
  | nil => intro c id _; rfl
  | cons l rest ih =>
    intro c id hne
    simp only [List.foldl_cons]
    rw [ih _ id (fun e he => hne e (List.mem_cons_of_mem l he)),
      add_speaker_latencies,
      mapGet_insert_ne _ _ _ (fun hh => hne l (List.mem_cons_self l rest) hh.symm)]

theorem fold_add_speaker_lookup (L : List SpeakerLatency)
    (hd : L.Pairwise (fun a b => a.speaker_id ≠ b.speaker_id)) :
    ∀ (c : LatencyCompensator) (sl : SpeakerLatency), sl ∈ L →
      mapGet (L.foldl LatencyCompensator.add_speaker c).speaker_latencies
          sl.speaker_id = some sl := by
  induction L with
  | nil => intro c sl h; cases h
  | cons l rest ih =>
    intro c sl hmem
    rcases List.mem_cons.mp hmem with rfl | hmem
    · simp only [List.foldl_cons]
      rw [fold_add_speaker_lookup_preserve rest _ _
        (fun e he => Ne.symm ((List.pairwise_cons.mp hd).1 e he))]
      rw [add_speaker_latencies]
      exact mapGet_insert_self _ _
    · simp only [List.foldl_cons]
      exact ih (List.pairwise_cons.mp hd).2 _ sl hmem

/-- C7: after registering a set of speakers with distinct ids, `max_latency`
is the maximum total (network + processing + hardware) latency over all of
them, and each registered speaker's delay is `max_latency − total`,
saturating at zero. -/
theorem latency_compensator_correct (L : List SpeakerLatency)
    (hd : L.Pairwise (fun a b => a.speaker_id ≠ b.speaker_id)) :
    (L.foldl LatencyCompensator.add_speaker LatencyCompensator.new).max_latency
        = (L.map SpeakerLatency.total).foldl max 0 ∧
      ∀ sl ∈ L,
        (L.foldl LatencyCompensator.add_speaker
            LatencyCompensator.new).delay_for_speaker sl.speaker_id =
          some ((L.map SpeakerLatency.total).foldl max 0 - sl.total) := by
  constructor
  · exact fold_add_speaker_max L LatencyCompensator.new
  · intro sl hmem
    unfold LatencyCompensator.delay_for_speaker
    rw [fold_add_speaker_lookup L hd LatencyCompensator.new sl hmem]
    rw [fold_add_speaker_max L LatencyCompensator.new]
    rfl

/-- C7 witness: sp1 with total 17 ms and sp2 with total 28 ms give
`delay_for(sp1) = 11 ms`, `delay_for(sp2) = 0` and `max_latency = 28 ms`
(durations in nanoseconds). -/
theorem latency_compensator_witness :
    ([⟨"sp1", 5000000, 5000000, 7000000⟩,
      ⟨"sp2", 10000000, 10000000, 8000000⟩].foldl
        LatencyCompensator.add_speaker LatencyCompensator.new).max_latency
        = 28000000 ∧
      ([⟨"sp1", 5000000, 5000000, 7000000⟩,
        ⟨"sp2", 10000000, 10000000, 8000000⟩].foldl
          LatencyCompensator.add_speaker
          LatencyCompensator.new).delay_for_speaker "sp1" = some 11000000 ∧
      ([⟨"sp1", 5000000, 5000000, 7000000⟩,
        ⟨"sp2", 10000000, 10000000, 8000000⟩].foldl
          LatencyCompensator.add_speaker
          LatencyCompensator.new).delay_for_speaker "sp2" = some 0 := by
  have h := latency_compensator_correct
    [⟨"sp1", 5000000, 5000000, 7000000⟩, ⟨"sp2", 10000000, 10000000, 8000000⟩]
    (by simp)
  refine ⟨h.1, ?_, ?_⟩
  · have := h.2 ⟨"sp1", 5000000, 5000000, 7000000⟩ (by simp)
    simpa using this
  · have := h.2 ⟨"sp2", 10000000, 10000000, 8000000⟩ (by simp)
    simpa using this

/-- C8: `sync` latches the offset to `max(0, reference − local)` afresh
(independent of the previous offset), `now` returns system time plus that
offset, and immediately after a sync (any `s' ≥ s`) the reported time is at
least the reference — in particular `now().seconds ≥ reference.seconds`. -/
theorem ptp_clock_sync_latches (c : PtpClock) (ref : ClockTimestamp)
    (s s' : Nat) (hss : s ≤ s') :
    (c.sync s ref).offset = ref.to_duration - s ∧
      ((c.sync s ref).now s').to_duration = s' + (c.sync s ref).offset ∧
      ref.to_duration ≤ ((c.sync s ref).now s').to_duration ∧
      ref.seconds ≤ ((c.sync s ref).now s').seconds := by
  obtain ⟨rs, rn, rsrc⟩ := ref
  unfold PtpClock.sync PtpClock.now timestampOfDuration ClockTimestamp.to_duration
  simp only []
  refine ⟨?_, ?_, ?_, ?_⟩ <;> split <;> omega

/-- C8 witness: syncing to a reference of 2000 s makes `now()` report at
least 2000 seconds. -/
theorem ptp_clock_sync_latches_witness :
    ((((PtpClock.new ClockConfig.default).sync 5
        ⟨2000, 0, ClockSource.Ptp⟩).now 5).seconds ≥ 2000) ∧
      ((PtpClock.new ClockConfig.default).sync 5
        ⟨2000, 0, ClockSource.Ptp⟩).offset =
          (ClockTimestamp.to_duration ⟨2000, 0, ClockSource.Ptp⟩) - 5 :=
  ⟨(ptp_clock_sync_latches (PtpClock.new ClockConfig.default)
      ⟨2000, 0, ClockSource.Ptp⟩ 5 5 (by decide)).2.2.2,
    (ptp_clock_sync_latches (PtpClock.new ClockConfig.default)
      ⟨2000, 0, ClockSource.Ptp⟩ 5 5 (by decide)).1⟩

theorem le_foldl_max (l : List ℚ) : ∀ x : ℚ, x ≤ l.foldl max x := by
  induction l with
  | nil => intro x; exact le_refl x
  | cons a as ih => intro x; exact le_trans (le_max_left x a) (ih (max x a))

theorem applyLimitingChannel_bound (t : ℚ) (L : Nat) (ht : 1 / 10000 ≤ t) :
    ∀ (ch : List ℚ) (g : ℚ), 0 ≤ g → g ≤ 1 →
      (0 ≤ (applyLimitingChannel t L g ch).1 ∧
        (applyLimitingChannel t L g ch).1 ≤ 1) ∧
      ∀ y ∈ (applyLimitingChannel t L g ch).2, |y| ≤ t := by
  intro ch
  induction ch with
  | nil =>
    intro g hg0 hg1
    exact ⟨⟨hg0, hg1⟩, by intro y hy; cases hy⟩
  | cons x rest ih =>
    intro g hg0 hg1
    have habs : |x| ≤ (((x :: rest).take L).map (fun v => |v|)).foldl max |x| :=
      le_foldl_max _ _
    set am := (((x :: rest).take L).map (fun v => |v|)).foldl max |x| with ham
    have htpos : (0 : ℚ) < t := lt_of_lt_of_le (by norm_num) ht
    by_cases hcase : am > t
    · -- attack: pull the gain down below threshold / peak
      have hampos : (0 : ℚ) < am := lt_trans htpos hcase
      have hmaxam : max am (1 / 10000 : ℚ) = am :=
        max_eq_left (le_trans ht (le_of_lt hcase))
      have hg'0 : 0 ≤ min (t / max am (1 / 10000)) g :=
        le_min (by rw [hmaxam]; exact div_nonneg (le_of_lt htpos) (le_of_lt hampos))
          hg0
      have hg'1 : min (t / max am (1 / 10000)) g ≤ 1 :=
        le_trans (min_le_right _ _) hg1
      have hout : |x * min (t / max am (1 / 10000)) g| ≤ t := by
        rw [abs_mul, abs_of_nonneg hg'0]
        calc |x| * min (t / max am (1 / 10000)) g
            ≤ am * (t / am) := by
              rw [hmaxam]
              exact mul_le_mul habs (min_le_left _ _) (hmaxam ▸ hg'0) (le_of_lt hampos)
          _ = t := by
              rw [mul_comm]
              exact div_mul_cancel₀ t (ne_of_gt hampos)
      have hstep := ih (min (t / max am (1 / 10000)) g) hg'0 hg'1
      simp only [applyLimitingChannel, ← ham, if_pos hcase]
      exact ⟨hstep.1, by
        intro y hy
        rcases List.mem_cons.mp hy with rfl | hy
        · exact hout
        · exact hstep.2 y hy⟩
    · -- release: drift back towards unity gain
      have hg'0 : 0 ≤ min (g * (99 / 100) + 1 * (1 / 100)) 1 := by
        apply le_min _ (by norm_num)
        have : 0 ≤ g * (99 / 100 : ℚ) := mul_nonneg hg0 (by norm_num)
        linarith
      have hg'1 : min (g * (99 / 100) + 1 * (1 / 100)) 1 ≤ (1 : ℚ) :=
        min_le_right _ _
      have hout : |x * min (g * (99 / 100) + 1 * (1 / 100)) 1| ≤ t := by
        rw [abs_mul, abs_of_nonneg hg'0]
        calc |x| * min (g * (99 / 100) + 1 * (1 / 100)) 1
            ≤ |x| * 1 := mul_le_mul_of_nonneg_left hg'1 (abs_nonneg x)
          _ = |x| := mul_one _
          _ ≤ am := habs
          _ ≤ t := le_of_not_lt hcase
      have hstep := ih (min (g * (99 / 100) + 1 * (1 / 100)) 1) hg'0 hg'1
      simp only [applyLimitingChannel, ← ham, if_neg hcase]
      exact ⟨hstep.1, by
        intro y hy
        rcases List.mem_cons.mp hy with rfl | hy
        · exact hout
        · exact hstep.2 y hy⟩

theorem applyChannels_bound (t : ℚ) (L : Nat) (ht : 1 / 10000 ≤ t) :
    ∀ (chs : List (List ℚ)) (g : ℚ), 0 ≤ g → g ≤ 1 →
      ∀ ch ∈ (applyChannels t L g chs).2, ∀ y ∈ ch, |y| ≤ t := by
  intro chs
  induction chs with
  | nil => intro g _ _ ch hch; cases hch
  | cons c rest ih =>
    intro g hg0 hg1 ch hch
    have h1 := applyLimitingChannel_bound t L ht c g hg0 hg1
    simp only [applyChannels] at hch
    rcases List.mem_cons.mp hch with rfl | hch
    · exact h1.2
    · exact ih (applyLimitingChannel t L g c).1 h1.1.1 h1.1.2 ch hch

/-- C3: for every audio block and carried-over limiter gain in `[0, 1]`, with
the linear limiting threshold `T ≥ 0.0001` (always true after
`HeadroomManager::new`, which clamps the headroom to at most 20 dB so that
`T = 10^(−headroom/20) ≥ 0.1`), every sample emitted by `apply_limiting`
satisfies `|y| ≤ T · 1.01` (samples are addressed by channel and sample index;
out-of-range indices read the default `0`, which also satisfies the bound). -/
theorem headroom_limiter_bound (m : HeadroomManager) (channels : List (List ℚ))
    (ht : 1 / 10000 ≤ m.limiting_threshold)
    (hg0 : 0 ≤ m.limiter_gain) (hg1 : m.limiter_gain ≤ 1) :
    ∀ ci si : Nat,
      |(((m.apply_limiting channels).2.getD ci []).getD si 0)| ≤
        m.limiting_threshold * (101 / 100) := by
  intro ci si
  have htpos : (0 : ℚ) ≤ m.limiting_threshold := le_trans (by norm_num) ht
  have hbound0 : (0 : ℚ) ≤ m.limiting_threshold * (101 / 100) :=
    mul_nonneg htpos (by norm_num)
  have hT : m.limiting_threshold ≤ m.limiting_threshold * (101 / 100) :=
    le_mul_of_one_le_right htpos (by norm_num)
  have hall : ∀ ch ∈ (m.apply_limiting channels).2, ∀ y ∈ ch,
      |y| ≤ m.limiting_threshold := by
    intro ch hch y hy
    unfold HeadroomManager.apply_limiting at hch
    by_cases hempty : channels.isEmpty
    · rw [if_pos hempty] at hch
      rcases channels with _ | ⟨c, cs⟩
      · cases hch
      · cases hempty
    · rw [if_neg hempty] at hch
      exact applyChannels_bound m.limiting_threshold m.lookahead_samples ht
        channels m.limiter_gain hg0 hg1 ch hch y hy
  by_cases hci : ci < (m.apply_limiting channels).2.length
  · have hmemc : (m.apply_limiting channels).2.getD ci [] ∈
        (m.apply_limiting channels).2 := by
      rw [List.getD_eq_getElem _ _ hci]
      exact List.getElem_mem hci
    by_cases hsi : si < ((m.apply_limiting channels).2.getD ci []).length
    · have hmemy : ((m.apply_limiting channels).2.getD ci []).getD si 0 ∈
          (m.apply_limiting channels).2.getD ci [] := by
        rw [List.getD_eq_getElem _ _ hsi]
        exact List.getElem_mem hsi
      exact le_trans (hall _ hmemc _ hmemy) hT
    · rw [List.getD_eq_default _ _ (by omega)]
      simpa using hbound0
  · have h1 : (m.apply_limiting channels).2.getD ci [] = [] :=
      List.getD_eq_default _ _ (by omega)
    rw [h1]
    simpa using hbound0

/-- C3 witness: a constant near-full-scale channel through a limiter with
linear threshold 1/2, unity starting gain and 1-sample lookahead stays below
`(1/2) · 1.01` (checked at channel 0, sample 0). -/
theorem headroom_limiter_bound_witness :
    |((((⟨1 / 2, 1, 1⟩ : HeadroomManager).apply_limiting
        [[99 / 100, 99 / 100, 99 / 100]]).2.getD 0 []).getD 0 0)| ≤
      (1 / 2 : ℚ) * (101 / 100) :=
  headroom_limiter_bound ⟨1 / 2, 1, 1⟩ [[99 / 100, 99 / 100, 99 / 100]]
    (by norm_num) (by norm_num) (by norm_num) 0 0

/-- Helper: the 5.1-to-stereo branch of `downmix_channels`, samplewise. -/
theorem downmix_five_eq (input : List (List ℚ)) (n : Nat)
    (h5 : 5 ≤ input.length) (hlen : ∀ ch ∈ input, ch.length = n) :
    downmix_channels input 2 =
      [(List.range n).map
        (fun i => (input.getD 0 []).getD i 0 +
          (input.getD 2 []).getD i 0 * (707 / 1000)),
       (List.range n).map
        (fun i => (input.getD 1 []).getD i 0 +
          (input.getD 2 []).getD i 0 * (707 / 1000))] := by
  have hne : ¬ (input.isEmpty ∨ (2 : Nat) = 0) := by
    rcases input with _ | ⟨c, cs⟩
    · simp at h5
    · simp
  have hhead : (input.headD []).length = n := by
    rcases input with _ | ⟨c, cs⟩
    · simp at h5
    · exact hlen c (List.mem_cons_self c cs)
  unfold downmix_channels
  rw [if_neg hne]
  simp only [hhead]
  rw [if_neg (by omega), if_pos (by omega), if_pos ⟨by trivial, h5⟩,
    if_pos (by omega), if_pos (by omega)]

/-- C9: downmixing ≥ 5 equal-length channels to 2 keeps channels FL and FR,
folds the centre channel in at 0.707, and drops everything else:
`out = [FL + 0.707·C, FR + 0.707·C]` samplewise.  In particular six constant
1.0 channels over 100 frames produce samples `1.707 > 1` in both output
channels. -/
theorem downmix_five_to_stereo (input : List (List ℚ)) (n : Nat)
    (h5 : 5 ≤ input.length) (hlen : ∀ ch ∈ input, ch.length = n) :
    downmix_channels input 2 =
        [(List.range n).map
          (fun i => (input.getD 0 []).getD i 0 +
            (input.getD 2 []).getD i 0 * (707 / 1000)),
         (List.range n).map
          (fun i => (input.getD 1 []).getD i 0 +
            (input.getD 2 []).getD i 0 * (707 / 1000))] ∧
      (∀ ch ∈ downmix_channels
          (List.replicate 6 (List.replicate 100 (1 : ℚ))) 2,
        ∀ y ∈ ch, (1 : ℚ) < y) := by
  refine ⟨downmix_five_eq input n h5 hlen, ?_⟩
  rw [downmix_five_eq (List.replicate 6 (List.replicate 100 (1 : ℚ))) 100
    (by simp) (by intro ch hch; simp [List.eq_of_mem_replicate hch])]
  intro ch hch y hy
  have hrep : ∀ k, k < 6 →
      (List.replicate 6 (List.replicate 100 (1 : ℚ))).getD k [] =
        List.replicate 100 (1 : ℚ) := by
    intro k hk
    rw [List.getD_eq_getElem _ _ (by simpa using hk)]
    exact List.getElem_replicate ..
  rcases List.mem_cons.mp hch with rfl | hch
  · rcases List.mem_map.mp hy with ⟨i, hi, rfl⟩
    have hi' : i < 100 := List.mem_range.mp hi
    rw [hrep 0 (by omega), hrep 2 (by omega),
      List.getD_eq_getElem _ _ (by simpa using hi'),
      List.getElem_replicate]
    norm_num
  · rcases List.mem_cons.mp hch with rfl | hch
    · rcases List.mem_map.mp hy with ⟨i, hi, rfl⟩
      have hi' : i < 100 := List.mem_range.mp hi
      rw [hrep 1 (by omega), hrep 2 (by omega),
        List.getD_eq_getElem _ _ (by simpa using hi'),
        List.getElem_replicate]
      norm_num
    · cases hch

/-- C9 witness: the six-constant-channel instance of the downmix theorem. -/
theorem downmix_five_to_stereo_witness :
    (5 ≤ (List.replicate 6 (List.replicate 100 (1 : ℚ))).length) ∧
      (∀ ch ∈ downmix_channels
          (List.replicate 6 (List.replicate 100 (1 : ℚ))) 2,
        ∀ y ∈ ch, (1 : ℚ) < y) :=
  ⟨by simp,
    (downmix_five_to_stereo (List.replicate 6 (List.replicate 100 (1 : ℚ))) 100
      (by simp)
      (by intro ch hch; simp [List.eq_of_mem_replicate hch])).2⟩

end AudioNinja
